import Mathlib

/-!
Verification of the Blackjack-Simulator core against its specification.

The development shallowly embeds the Python sources:
  * `src/card.py`   — `Suit`, `Rank`, `Card`
  * `src/hand.py`   — hand valuation and derived predicates over a card list
  * `src/deck.py`   — the shoe (`Deck`) with its deal/reset operations
  * `src/player.py` — bankroll and bet bookkeeping
  * `src/dealer.py` — the dealer hit rule
  * `src/strategies.py` — the five decision policies and the Hi-Lo counter
  * `src/game.py`   — `start_round` / `play_auto` round controller

Python code that can raise is embedded in `Except PyErr`.  In `game.py`
the expression `hand.is_blackjack()` *calls* the value of the
`is_blackjack` property; since that value is a `bool`, every evaluation
of this expression raises `TypeError: 'bool' object is not callable`.
The embedding keeps this behaviour (`is_blackjackCalledE`).

Cards dealt from an exhausted shoe are Python `None`; `hand.add_card`
appends `None` verbatim, and any later iteration over the hand raises
`AttributeError`.  Game-level hands are therefore `List (Option Card)`.
-/

namespace Blackjack

/-- Model of `Suit` from card.py. -/
inductive Suit where
  | spades | hearts | diamonds | clubs
  deriving DecidableEq, Repr

/-- Model of `Rank` from card.py. -/
inductive Rank where
  | two | three | four | five | six | seven | eight | nine | ten
  | jack | queen | king | ace
  deriving DecidableEq, Repr

/-- Model of `Rank.numeric_value` from card.py: face value, J/Q/K = 10, Ace = 11. -/
def Rank.numeric_value : Rank → Nat
  | .two => 2 | .three => 3 | .four => 4 | .five => 5 | .six => 6
  | .seven => 7 | .eight => 8 | .nine => 9 | .ten => 10
  | .jack => 10 | .queen => 10 | .king => 10 | .ace => 11

/-- Model of `Card` from card.py. -/
structure Card where
  rank : Rank
  suit : Suit
  deriving DecidableEq, Repr

/-- Model of `Card.value` from card.py. -/
def Card.value (c : Card) : Nat := c.rank.numeric_value

/-- Model of `Card.is_ace` from card.py. -/
def Card.is_ace (c : Card) : Bool := c.rank == Rank.ace

/-- Model of `Card.is_ten_value` from card.py: value equals 10. -/
def Card.is_ten_value (c : Card) : Bool := c.value == 10

/-! ## Hand valuation (hand.py)

`Hand.value` first sums all card values with every Ace worth 11 while
counting the Aces, then repeatedly subtracts 10 while the total exceeds
21 and undemoted Aces remain. -/

/-- Sum of card values with every Ace counted as 11 (first loop of
`Hand.value`). -/
def rawSum (cards : List Card) : Nat := (cards.map Card.value).sum

/-- Number of Aces in the hand (first loop of `Hand.value`). -/
def numAces (cards : List Card) : Nat := cards.countP Card.is_ace

/-- The `while value > 21 and num_aces > 0` demotion loop of
`Hand.value`: subtract 10 per Ace demoted from 11 to 1. -/
def aceAdjust : Nat → Nat → Nat
  | v, 0 => v
  | v, a + 1 => if 21 < v then aceAdjust (v - 10) a else v

/-- Model of `Hand.value` from hand.py. -/
def handValue (cards : List Card) : Nat := aceAdjust (rawSum cards) (numAces cards)

/-- Model of `Hand.is_blackjack` from hand.py: exactly two cards, one Ace and one
ten-valued card. -/
def is_blackjack (cards : List Card) : Bool :=
  cards.length == 2 && cards.any Card.is_ace && cards.any Card.is_ten_value

/-- Model of `Hand.is_soft` from hand.py: contains an Ace and the all-Aces-as-11
sum does not bust. -/
def is_soft (cards : List Card) : Bool :=
  cards.any Card.is_ace && rawSum cards ≤ 21

/-- Model of `Hand.is_pair` from hand.py: exactly two cards of the same rank. -/
def is_pair (cards : List Card) : Bool :=
  match cards with
  | [a, b] => a.rank == b.rank
  | _ => false

lemma aceAdjust_le (v : Nat) : ∀ a, aceAdjust v a ≤ v := by
  induction v using Nat.strong_induction_on with
  | _ v ih =>
    intro a
    cases a with
    | zero => simp [aceAdjust]
    | succ a =>
      by_cases h : 21 < v
      · have hlt : v - 10 < v := by omega
        calc aceAdjust v (a + 1) = aceAdjust (v - 10) a := by simp [aceAdjust, h]
          _ ≤ v - 10 := ih (v - 10) hlt a
          _ ≤ v := by omega
      · simp [aceAdjust, h]

lemma aceAdjust_of_le (v : Nat) (a : Nat) (h : v ≤ 21) : aceAdjust v a = v := by
  cases a with
  | zero => simp [aceAdjust]
  | succ a => simp [aceAdjust]; omega

/-- A hand of four aces, as in the spec's testable property. -/
def fourAces : List Card :=
  [⟨Rank.ace, Suit.spades⟩, ⟨Rank.ace, Suit.hearts⟩,
   ⟨Rank.ace, Suit.diamonds⟩, ⟨Rank.ace, Suit.clubs⟩]

/-- Claim C2: `Hand.value` equals the all-Aces-as-11 sum adjusted by the
demote-one-Ace-at-a-time loop; it never exceeds that naive sum, equals
it whenever the naive sum is at most 21, and values four bare Aces
at 14. -/
theorem claim_C2_hand_value :
    (∀ cards : List Card,
      handValue cards = aceAdjust (rawSum cards) (numAces cards) ∧
      handValue cards ≤ rawSum cards ∧
      (rawSum cards ≤ 21 → handValue cards = rawSum cards)) ∧
    handValue fourAces = 14 := by
  refine ⟨fun cards => ⟨rfl, aceAdjust_le _ _, fun h => aceAdjust_of_le _ _ h⟩, ?_⟩
  decide

/-- Concrete instantiation of claim C2 on the hand {Ace♠, Seven♥}:
the naive sum 18 is below 21 so the value equals it. -/
theorem claim_C2_hand_value_witness :
    rawSum [⟨Rank.ace, Suit.spades⟩, ⟨Rank.seven, Suit.hearts⟩] ≤ 21 ∧
    handValue [⟨Rank.ace, Suit.spades⟩, ⟨Rank.seven, Suit.hearts⟩] =
      rawSum [⟨Rank.ace, Suit.spades⟩, ⟨Rank.seven, Suit.hearts⟩] :=
  ⟨by decide,
   (claim_C2_hand_value.1 [⟨Rank.ace, Suit.spades⟩, ⟨Rank.seven, Suit.hearts⟩]).2.2
     (by decide)⟩

/-! ## Strategies (strategies.py)

`Action` and the five `decide` policies.  Martingale and CardCounting
delegate their gameplay decisions to a composed `BasicStrategy`. -/

/-- Model of `Action` from strategies.py. -/
inductive Action where
  | hit | stand | double_down | split | surrender | insurance
  deriving DecidableEq, Repr

/-- Pair block of `BasicStrategy.decide` (lines 70-89).  `none` models
the Python `pass`/fall-through to the soft/hard logic. -/
def pairDecision (r : Rank) (dv : Nat) : Option Action :=
  match r with
  | .ace | .eight => some .split
  | .ten | .jack | .queen | .king | .five => none
  | .nine => if dv = 7 ∨ dv = 10 ∨ dv = 11 then none else some .split
  | .two | .three | .seven => if 2 ≤ dv ∧ dv ≤ 7 then some .split else none
  | .four => if dv = 5 ∨ dv = 6 then some .split else none
  | .six => if 2 ≤ dv ∧ dv ≤ 6 then some .split else none

/-- Soft-hand block of `BasicStrategy.decide` (lines 92-113). -/
def softDecision (pv dv : Nat) (can_double : Bool) : Action :=
  if 19 ≤ pv then .stand
  else if pv = 18 then
    if dv ≤ 8 then
      if !can_double then .stand
      else if dv = 3 ∨ dv = 4 ∨ dv = 5 ∨ dv = 6 then .double_down
      else .stand
    else .hit
  else if pv = 17 then
    if can_double = true ∧ (dv = 3 ∨ dv = 4 ∨ dv = 5 ∨ dv = 6) then .double_down
    else .hit
  else if pv = 15 ∨ pv = 16 then
    if can_double = true ∧ (dv = 4 ∨ dv = 5 ∨ dv = 6) then .double_down
    else .hit
  else if pv = 13 ∨ pv = 14 then
    if can_double = true ∧ (dv = 5 ∨ dv = 6) then .double_down
    else .hit
  else .hit

/-- Hard-hand block of `BasicStrategy.decide` (lines 116-141). -/
def hardDecision (pv dv : Nat) (can_double : Bool) : Action :=
  if 17 ≤ pv then .stand
  else if 13 ≤ pv then
    if dv ≤ 6 then .stand else .hit
  else if pv = 12 then
    if 4 ≤ dv ∧ dv ≤ 6 then .stand else .hit
  else if pv = 11 then
    if can_double then .double_down else .hit
  else if pv = 10 then
    if can_double = true ∧ dv ≤ 9 then .double_down else .hit
  else if pv = 9 then
    if can_double = true ∧ 3 ≤ dv ∧ dv ≤ 6 then .double_down else .hit
  else .hit

/-- Rank of `hand.cards[0]`; the Python code reads it only under the
`is_pair` guard (two cards present), so the empty default is inert. -/
def firstRank : List Card → Rank
  | c :: _ => c.rank
  | [] => Rank.two

/-- Model of `hand.cards[0].is_ace`, read only under the `is_pair` guard. -/
def firstIsAce : List Card → Bool
  | c :: _ => c.is_ace
  | [] => false

/-- The `if hand.is_pair and can_split:` guard around the pair block of
`BasicStrategy.decide`; `none` when the guard is false or the block
falls through. -/
def pairGate (cards : List Card) (can_split : Bool) (dv : Nat) : Option Action :=
  if is_pair cards && can_split then pairDecision (firstRank cards) dv else none

/-- Model of `BasicStrategy.decide` from strategies.py. -/
def basicDecide (cards : List Card) (dealer_card : Card)
    (can_double can_split can_surrender : Bool) : Action :=
  let pv := handValue cards
  let dv := dealer_card.value
  match pairGate cards can_split dv with
  | some a => a
  | none =>
    if is_soft cards then softDecision pv dv can_double
    else hardDecision pv dv can_double

/-- Model of `ConservativeStrategy.decide`: split only Aces, stand from 12 up. -/
def conservativeDecide (cards : List Card) (dealer_card : Card)
    (can_double can_split can_surrender : Bool) : Action :=
  let pv := handValue cards
  if is_pair cards && can_split && firstIsAce cards then .split
  else if 12 ≤ pv then .stand
  else .hit

/-- Ranks whose pairs `AggressiveStrategy` refuses to split
(`"TEN", "JACK", "QUEEN", "KING", "FIVE"`). -/
def isTenOrFiveRank : Rank → Bool
  | .ten | .jack | .queen | .king | .five => true
  | _ => false

/-- Model of `AggressiveStrategy.decide`: split most pairs, double on 9-12, hit
below 18.  (The Python body computes `dealer_value` but never uses it.) -/
def aggressiveDecide (cards : List Card) (dealer_card : Card)
    (can_double can_split can_surrender : Bool) : Action :=
  let pv := handValue cards
  if is_pair cards && can_split && !isTenOrFiveRank (firstRank cards) then .split
  else if can_double = true ∧ 9 ≤ pv ∧ pv ≤ 12 then .double_down
  else if pv < 18 then .hit
  else .stand

/-- Model of `MartingaleStrategy.decide` delegates to the composed BasicStrategy. -/
def martingaleDecide (cards : List Card) (dealer_card : Card)
    (can_double can_split can_surrender : Bool) : Action :=
  basicDecide cards dealer_card can_double can_split can_surrender

/-- Model of `CardCountingStrategy.decide` delegates to the composed BasicStrategy. -/
def cardCountingDecide (cards : List Card) (dealer_card : Card)
    (can_double can_split can_surrender : Bool) : Action :=
  basicDecide cards dealer_card can_double can_split can_surrender

/-- The actions `decide` is allowed to return (INSURANCE excluded). -/
def legalActions : List Action :=
  [.hit, .stand, .double_down, .split, .surrender]

lemma pairDecision_cases (r : Rank) (dv : Nat) :
    pairDecision r dv = none ∨ pairDecision r dv = some Action.split := by
  cases r <;> simp only [pairDecision] <;> (try split_ifs) <;> simp

lemma softDecision_mem (pv dv : Nat) (cd : Bool) :
    softDecision pv dv cd ∈ legalActions := by
  unfold softDecision legalActions
  split_ifs <;> simp

lemma hardDecision_mem (pv dv : Nat) (cd : Bool) :
    hardDecision pv dv cd ∈ legalActions := by
  unfold hardDecision legalActions
  split_ifs <;> simp

lemma pairGate_cases (cards : List Card) (cs : Bool) (dv : Nat) :
    pairGate cards cs dv = none ∨ pairGate cards cs dv = some Action.split := by
  unfold pairGate
  split_ifs
  · exact pairDecision_cases _ _
  · exact Or.inl rfl

lemma basicDecide_mem (cards : List Card) (d : Card) (cd cs csr : Bool) :
    basicDecide cards d cd cs csr ∈ legalActions := by
  rcases pairGate_cases cards cs d.value with h | h <;> simp only [basicDecide, h]
  · split_ifs
    · exact softDecision_mem _ _ _
    · exact hardDecision_mem _ _ _
  · simp [legalActions]

lemma conservativeDecide_mem (cards : List Card) (d : Card) (cd cs csr : Bool) :
    conservativeDecide cards d cd cs csr ∈ legalActions := by
  by_cases h1 : (is_pair cards && cs && firstIsAce cards) = true <;>
    by_cases h2 : 12 ≤ handValue cards <;>
      simp [conservativeDecide, legalActions, h1, h2]

lemma aggressiveDecide_mem (cards : List Card) (d : Card) (cd cs csr : Bool) :
    aggressiveDecide cards d cd cs csr ∈ legalActions := by
  by_cases h1 : (is_pair cards && cs && !isTenOrFiveRank (firstRank cards)) = true <;>
    by_cases h2 : cd = true ∧ 9 ≤ handValue cards ∧ handValue cards ≤ 12 <;>
      by_cases h3 : handValue cards < 18 <;>
        simp [aggressiveDecide, legalActions, h1, h2, h3]

/-- Claim C3: for every hand (including the empty one), dealer upcard and
flag combination, the `decide` of each of the five strategy variants is a
total function returning one of HIT, STAND, DOUBLE_DOWN, SPLIT,
SURRENDER — never INSURANCE. -/
theorem claim_C3_decide_total (cards : List Card) (dealer_card : Card)
    (can_double can_split can_surrender : Bool) :
    basicDecide cards dealer_card can_double can_split can_surrender ∈ legalActions ∧
    conservativeDecide cards dealer_card can_double can_split can_surrender ∈ legalActions ∧
    aggressiveDecide cards dealer_card can_double can_split can_surrender ∈ legalActions ∧
    martingaleDecide cards dealer_card can_double can_split can_surrender ∈ legalActions ∧
    cardCountingDecide cards dealer_card can_double can_split can_surrender ∈ legalActions ∧
    Action.insurance ∉ legalActions :=
  ⟨basicDecide_mem _ _ _ _ _, conservativeDecide_mem _ _ _ _ _,
   aggressiveDecide_mem _ _ _ _ _, basicDecide_mem _ _ _ _ _,
   basicDecide_mem _ _ _ _ _, by decide⟩

/-! ### Claim C5: BasicStrategy on soft 18 -/

lemma is_pair_eq_false_of_soft (cards : List Card) (hs : is_soft cards = true) :
    is_pair cards = false := by
  match cards with
  | [] => rfl
  | [_] => rfl
  | _ :: _ :: _ :: _ => rfl
  | [a, b] =>
    by_contra hne
    have hab : a.rank = b.rank := by
      have hp : is_pair [a, b] = true := by
        cases h : is_pair [a, b]
        · exact absurd h hne
        · rfl
      simpa [is_pair] using hp
    have hsum : rawSum [a, b] ≤ 21 := by
      have h := hs
      simp only [is_soft, Bool.and_eq_true, decide_eq_true_eq] at h
      exact h.2
    have hace : a.is_ace = true ∨ b.is_ace = true := by
      have h := hs
      simp only [is_soft, Bool.and_eq_true] at h
      simpa using h.1
    have hranks : a.rank = Rank.ace ∧ b.rank = Rank.ace := by
      rcases hace with h | h <;> simp only [Card.is_ace, beq_iff_eq] at h
      · exact ⟨h, by rw [← hab]; exact h⟩
      · exact ⟨by rw [hab]; exact h, h⟩
    simp only [rawSum, List.map_cons, List.map_nil, List.sum_cons, List.sum_nil,
      Card.value, hranks.1, hranks.2, Rank.numeric_value] at hsum
    omega

/-- Claim C5: on every soft hand of value 18, `BasicStrategy.decide`
doubles against dealer 3-6 when doubling is allowed, stands against every
other dealer card of value at most 8, and hits against dealer 9,
ten-valued cards and Ace (value 11). -/
theorem claim_C5_basic_soft18 (cards : List Card) (d : Card)
    (can_double can_split can_surrender : Bool)
    (hs : is_soft cards = true) (hv : handValue cards = 18) :
    (can_double = true ∧ (d.value = 3 ∨ d.value = 4 ∨ d.value = 5 ∨ d.value = 6) →
      basicDecide cards d can_double can_split can_surrender = Action.double_down) ∧
    (d.value ≤ 8 ∧ ¬(can_double = true ∧ (d.value = 3 ∨ d.value = 4 ∨ d.value = 5 ∨ d.value = 6)) →
      basicDecide cards d can_double can_split can_surrender = Action.stand) ∧
    (d.value = 9 ∨ d.value = 10 ∨ d.value = 11 →
      basicDecide cards d can_double can_split can_surrender = Action.hit) := by
  have hp : is_pair cards = false := is_pair_eq_false_of_soft cards hs
  have hg : pairGate cards can_split d.value = none := by
    unfold pairGate
    simp [hp]
  have hb : basicDecide cards d can_double can_split can_surrender =
      softDecision 18 d.value can_double := by
    simp only [basicDecide, hg, hs, if_true, hv]
  rw [hb]
  refine ⟨fun hdd => ?_, fun hst => ?_, fun hh => ?_⟩
  · rcases hdd with ⟨hcd, hdv⟩
    rcases hdv with h | h | h | h <;> simp [softDecision, hcd, h]
  · rcases hst with ⟨h8, hnot⟩
    by_cases hcd : can_double = true
    · have hmem : ¬(d.value = 3 ∨ d.value = 4 ∨ d.value = 5 ∨ d.value = 6) :=
        fun hm => hnot ⟨hcd, hm⟩
      simp [softDecision, hcd, h8, hmem]
    · have hcd2 : can_double = false := by
        cases hc : can_double
        · rfl
        · exact absurd hc hcd
      simp [softDecision, hcd2, h8]
  · have h8 : ¬(d.value ≤ 8) := by rcases hh with h | h | h <;> omega
    simp [softDecision, h8]

/-- Concrete instantiation of claim C5: the soft 18 {Ace♠, Seven♥}
against a dealer Five♦ with doubling allowed is doubled. -/
theorem claim_C5_basic_soft18_witness :
    basicDecide [⟨Rank.ace, Suit.spades⟩, ⟨Rank.seven, Suit.hearts⟩]
      ⟨Rank.five, Suit.diamonds⟩ true true true = Action.double_down :=
  (claim_C5_basic_soft18 [⟨Rank.ace, Suit.spades⟩, ⟨Rank.seven, Suit.hearts⟩]
      ⟨Rank.five, Suit.diamonds⟩ true true true (by decide) (by decide)).1
    ⟨rfl, by decide⟩

/-! ## Card counting (strategies.py, `CardCountingStrategy`) -/

/-- Mutable state of `CardCountingStrategy`: running count and cards
seen. -/
structure CCState where
  running_count : Int
  cards_seen : Nat
  deriving DecidableEq, Repr

/-- A freshly constructed (or `reset`) `CardCountingStrategy`. -/
def freshCC : CCState := { running_count := 0, cards_seen := 0 }

/-- Model of `CardCountingStrategy.update_count`: Hi-Lo, +1 for values 2-6,
-1 for values ≥ 10 or Aces, neutral otherwise. -/
def updateCount (s : CCState) (c : Card) : CCState :=
  let s := { s with cards_seen := s.cards_seen + 1 }
  if 2 ≤ c.value ∧ c.value ≤ 6 then { s with running_count := s.running_count + 1 }
  else if 10 ≤ c.value ∨ c.is_ace = true then { s with running_count := s.running_count - 1 }
  else s

/-- The Hi-Lo delta as the claim groups it: +1 for ranks 2-6, 0 for
7-9, -1 for ten-valued ranks and Ace. -/
def claimDelta : Rank → Int
  | .two | .three | .four | .five | .six => 1
  | .seven | .eight | .nine => 0
  | .ten | .jack | .queen | .king | .ace => -1

/-- One card of each of the 13 ranks. -/
def allRanks : List Rank :=
  [.two, .three, .four, .five, .six, .seven, .eight, .nine, .ten,
   .jack, .queen, .king, .ace]

lemma updateCount_running (s : CCState) (c : Card) :
    (updateCount s c).running_count = s.running_count + claimDelta c.rank := by
  rcases c with ⟨r, st⟩
  cases r <;> simp [updateCount, claimDelta, Card.value, Card.is_ace, Rank.numeric_value] <;>
    omega

lemma foldl_updateCount_running (s : CCState) (cards : List Card) :
    (cards.foldl updateCount s).running_count =
      s.running_count + ((cards.map Card.rank).map claimDelta).sum := by
  induction cards generalizing s with
  | nil => simp
  | cons c rest ih =>
    simp only [List.foldl_cons, List.map_cons, List.sum_cons]
    rw [ih, updateCount_running]
    ring

/-- Claim C8: from a fresh `CardCountingStrategy`, `update_count` moves
the running count by +1 on ranks 2-6, 0 on 7-9 and -1 on ten-valued
ranks and Aces, and after observing one card of each of the 13 ranks in
any order the running count is 0 again. -/
theorem claim_C8_hilo_count :
    (∀ (s : CCState) (c : Card),
      (updateCount s c).running_count = s.running_count + claimDelta c.rank) ∧
    (∀ cards : List Card, (cards.map Card.rank).Perm allRanks →
      (cards.foldl updateCount freshCC).running_count = 0) := by
  refine ⟨updateCount_running, fun cards hperm => ?_⟩
  rw [foldl_updateCount_running]
  have hsum : ((cards.map Card.rank).map claimDelta).sum =
      (allRanks.map claimDelta).sum :=
    (hperm.map claimDelta).sum_eq
  rw [hsum]
  decide

/-- Concrete instantiation of claim C8: one spade of each rank, dealt
high cards first, returns the running count to 0. -/
theorem claim_C8_hilo_count_witness :
    ((allRanks.reverse.map (fun r => Card.mk r Suit.spades)).foldl
        updateCount freshCC).running_count = 0 :=
  claim_C8_hilo_count.2 (allRanks.reverse.map (fun r => Card.mk r Suit.spades))
    (by decide)

/-! ## The shoe (deck.py) -/

/-- All four suits, in the Python `Suit` enum order. -/
def allSuits : List Suit := [.spades, .hearts, .diamonds, .clubs]

/-- One 52-card deck in `Deck.reset` order (outer loop suits, inner loop
ranks). -/
def oneDeck : List Card :=
  allSuits.flatMap (fun s => allRanks.map (fun r => { rank := r, suit := s }))

/-- Model of `num_decks` copies of the standard deck, as appended by the
`for _ in range(self.num_decks)` loop of `Deck.reset`. -/
def fullShoe : Nat → List Card
  | 0 => []
  | n + 1 => oneDeck ++ fullShoe n

/-- State of `Deck`: deck count, remaining cards (`_cards`, popped from
the end) and dealt cards (`_dealt_cards`). -/
structure DeckState where
  num_decks : Nat
  cards : List Card
  dealt_cards : List Card
  deriving DecidableEq, Repr

/-- Model of `Deck.deal`: `None` on an empty deck, otherwise pop the last card of
`_cards` and append it to `_dealt_cards`. -/
def Deck.deal (d : DeckState) : Option Card × DeckState :=
  match d.cards.getLast? with
  | none => (none, d)
  | some c =>
    (some c, { d with cards := d.cards.dropLast, dealt_cards := d.dealt_cards ++ [c] })

/-- Model of `Deck.remaining`. -/
def remaining (d : DeckState) : Nat := d.cards.length

/-- Model of `Deck.dealt_count`. -/
def dealt_count (d : DeckState) : Nat := d.dealt_cards.length

/-- Model of `Deck.total_cards`: `num_decks * 52`, independent of the lists. -/
def total_cards (d : DeckState) : Nat := d.num_decks * 52

/-- Model of `Deck.reset` (also the construction path of `Deck.__init__`). -/
def resetDeck (n : Nat) : DeckState :=
  { num_decks := n, cards := fullShoe n, dealt_cards := [] }

/-- The state transition of one `deal()` call. -/
def dealStep (d : DeckState) : DeckState := (Deck.deal d).2

lemma fullShoe_length (n : Nat) : (fullShoe n).length = n * 52 := by
  induction n with
  | zero => rfl
  | succ n ih =>
    have h52 : oneDeck.length = 52 := by decide
    simp [fullShoe, ih, h52]
    ring

lemma deal_of_empty (d : DeckState) (h : d.cards = []) : Deck.deal d = (none, d) := by
  simp [Deck.deal, h]

lemma deal_some_spec {d : DeckState} {c : Card} {d' : DeckState}
    (h : Deck.deal d = (some c, d')) :
    remaining d' + 1 = remaining d ∧
    d'.dealt_cards = d.dealt_cards ++ [c] ∧
    c ∈ d.cards ∧
    d'.num_decks = d.num_decks := by
  unfold Deck.deal at h
  cases hl : d.cards.getLast? with
  | none => rw [hl] at h; exact absurd (congrArg Prod.fst h) (by simp)
  | some x =>
    rw [hl] at h
    have hcx : c = x := by
      have := congrArg Prod.fst h
      simpa using this.symm
    subst hcx
    have hd' : d' = { d with cards := d.cards.dropLast, dealt_cards := d.dealt_cards ++ [c] } := by
      have := congrArg Prod.snd h
      simpa using this.symm
    subst hd'
    have hne : d.cards ≠ [] := by
      intro hnil
      rw [hnil] at hl
      simp at hl
    refine ⟨?_, rfl, ?_, rfl⟩
    · have hlen : 1 ≤ d.cards.length := by
        cases hc : d.cards
        · exact absurd hc hne
        · simp [hc]
      simp only [remaining, List.length_dropLast]
      omega
    · rcases List.mem_getLast?_eq_getLast (Option.mem_def.2 hl) with ⟨hne2, hx⟩
      rw [hx]
      exact List.getLast_mem hne2

lemma dealStep_num_decks (d : DeckState) : (dealStep d).num_decks = d.num_decks := by
  unfold dealStep Deck.deal
  cases hl : d.cards.getLast? <;> simp

lemma dealStep_invariant (d : DeckState)
    (h : remaining d + dealt_count d = total_cards d) :
    remaining (dealStep d) + dealt_count (dealStep d) = total_cards (dealStep d) := by
  unfold dealStep Deck.deal
  cases hl : d.cards.getLast? with
  | none => simpa using h
  | some c =>
    have hne : d.cards ≠ [] := by
      intro hnil
      rw [hnil] at hl
      simp at hl
    have hlen : 1 ≤ d.cards.length := by
      cases hc : d.cards
      · exact absurd hc hne
      · simp [hc]
    simp only [remaining, dealt_count, total_cards, List.length_dropLast,
      List.length_append, List.length_cons, List.length_nil] at h ⊢
    omega

lemma iterate_dealStep_invariant (k : Nat) (d : DeckState)
    (h : remaining d + dealt_count d = total_cards d) :
    remaining (dealStep^[k] d) + dealt_count (dealStep^[k] d) =
      total_cards (dealStep^[k] d) := by
  induction k generalizing d with
  | zero => simpa using h
  | succ k ih =>
    rw [Function.iterate_succ_apply]
    exact ih (dealStep d) (dealStep_invariant d h)

/-- Claim C6: for every shoe of at least one deck and every sequence of
`deal()` calls, `remaining + dealt_count = total_cards` holds after each
call; a successful deal removes exactly one card from the remaining pool
and appends that card to the dealt list; dealing from a depleted shoe
returns `None` and changes nothing. -/
theorem claim_C6_shoe_invariant :
    (∀ (n : Nat) (cs : List Card), 1 ≤ n → cs.Perm (fullShoe n) → ∀ k : Nat,
      remaining (dealStep^[k] { num_decks := n, cards := cs, dealt_cards := [] }) +
        dealt_count (dealStep^[k] { num_decks := n, cards := cs, dealt_cards := [] }) =
        total_cards (dealStep^[k] { num_decks := n, cards := cs, dealt_cards := [] })) ∧
    (∀ (d : DeckState) (c : Card) (d' : DeckState), Deck.deal d = (some c, d') →
      remaining d' + 1 = remaining d ∧ d'.dealt_cards = d.dealt_cards ++ [c] ∧
        c ∈ d.cards) ∧
    (∀ d : DeckState, remaining d = 0 → Deck.deal d = (none, d)) := by
  refine ⟨fun n cs _ hperm k => ?_, fun d c d' h => ?_, fun d h => ?_⟩
  · apply iterate_dealStep_invariant
    simp only [remaining, dealt_count, total_cards, List.length_nil]
    rw [hperm.length_eq, fullShoe_length]
    omega
  · rcases deal_some_spec h with ⟨h1, h2, h3, _⟩
    exact ⟨h1, h2, h3⟩
  · apply deal_of_empty
    exact List.length_eq_zero.mp h

/-- Concrete instantiation of claim C6: dealing right through a
single-deck shoe keeps the count identity at every step, here after 52
deals. -/
theorem claim_C6_shoe_invariant_witness :
    (1 ≤ 1 ∧
      remaining
          (dealStep^[52] { num_decks := 1, cards := fullShoe 1, dealt_cards := [] }) +
        dealt_count
          (dealStep^[52] { num_decks := 1, cards := fullShoe 1, dealt_cards := [] }) =
        total_cards
          (dealStep^[52] { num_decks := 1, cards := fullShoe 1, dealt_cards := [] })) ∧
    (remaining (resetDeck 0) = 0 ∧ Deck.deal (resetDeck 0) = (none, resetDeck 0)) :=
  ⟨⟨by decide, claim_C6_shoe_invariant.1 1 (fullShoe 1) (by decide) (List.Perm.refl _) 52⟩,
   ⟨by decide, claim_C6_shoe_invariant.2.2 (resetDeck 0) (by decide)⟩⟩

/-! ## Player, dealer and round controller (player.py, game.py)

Python-level failures are embedded in `Except PyErr`.  Two failure modes
matter here: `game.py` calls the `is_blackjack` *property* as a function
(`TypeError: 'bool' object is not callable`), and a card dealt from an
empty shoe is `None`, so any later iteration over the hand dereferences
`None` (`AttributeError`).  `hand.cards[0]` on an empty hand would be an
`IndexError`. -/

/-- The Python exceptions the embedded game code can raise. -/
inductive PyErr where
  | typeError | attributeError | indexError
  deriving DecidableEq, Repr

/-- State of `Player`: bankroll, current-bet accumulator, active hand
(cards may be Python `None`) and the attached strategy's `decide`. -/
structure PlayerState where
  bankroll : Int
  current_bet : Int
  hand : List (Option Card)
  strategy : List Card → Card → Bool → Bool → Bool → Action

/-- Model of `Player.place_bet`: fail (unchanged state) when the amount
exceeds the bankroll, else move the amount from bankroll to current
bet. -/
def placeBet (amount : Int) (p : PlayerState) : Bool × PlayerState :=
  if amount > p.bankroll then (false, p)
  else
    (true, { p with bankroll := p.bankroll - amount,
                    current_bet := p.current_bet + amount })

/-- Model of `Player.win`: add the amount to the bankroll. -/
def playerWin (amount : Int) (p : PlayerState) : PlayerState :=
  { p with bankroll := p.bankroll + amount }

/-- Model of `Player.clear_hands`: fresh hand, current bet back to 0. -/
def clearHands (p : PlayerState) : PlayerState :=
  { p with hand := [], current_bet := 0 }

/-- The accumulation loop of `Hand.value` run over a game-level hand:
value (Aces as 11) and ace count, `AttributeError` on a `None` card. -/
def rawAcesE : List (Option Card) → Except PyErr (Nat × Nat)
  | [] => .ok (0, 0)
  | none :: _ => .error .attributeError
  | some c :: rest => do
    let (v, a) ← rawAcesE rest
    .ok (v + c.value, a + (if c.is_ace then 1 else 0))

/-- Model of `Hand.value` over a game-level hand. -/
def handValueOptE (cards : List (Option Card)) : Except PyErr Nat := do
  let (v, a) ← rawAcesE cards
  .ok (aceAdjust v a)

/-- Python `any(p(card) for card in cards)` with short-circuiting;
`AttributeError` when a `None` card is reached. -/
def anyCardE (p : Card → Bool) : List (Option Card) → Except PyErr Bool
  | [] => .ok false
  | none :: _ => .error .attributeError
  | some c :: rest => if p c then .ok true else anyCardE p rest

/-- The `is_blackjack` property body over a game-level hand. -/
def is_blackjackE (cards : List (Option Card)) : Except PyErr Bool :=
  if cards.length ≠ 2 then .ok false
  else do
    let has_ace ← anyCardE Card.is_ace cards
    let has_ten ← anyCardE Card.is_ten_value cards
    .ok (has_ace && has_ten)

/-- The expression `hand.is_blackjack()` as written in game.py: the
property evaluates to a `bool`, and *calling* that bool raises
`TypeError: 'bool' object is not callable`. -/
def is_blackjackCalledE (cards : List (Option Card)) : Except PyErr Bool := do
  let _ ← is_blackjackE cards
  .error PyErr.typeError

/-- Extract the raw cards of a game-level hand; `AttributeError` on a
`None` card (the strategy reads `hand.value` first, touching every
card). -/
def toCardsE : List (Option Card) → Except PyErr (List Card)
  | [] => .ok []
  | none :: _ => .error .attributeError
  | some c :: rest => do
    let cs ← toCardsE rest
    .ok (c :: cs)

/-- Indexing `cards[0]`: `IndexError` on an empty list. -/
def headCardE : List (Option Card) → Except PyErr (Option Card)
  | [] => .error .indexError
  | x :: _ => .ok x

/-- Dereferencing a possibly-`None` card (`card.value` etc.). -/
def ofOptionCardE : Option Card → Except PyErr Card
  | some c => .ok c
  | none => .error .attributeError

/-- State of `Game`: player, dealer hand, shoe, base bet, round flag. -/
structure GameState where
  player : PlayerState
  dealer_hand : List (Option Card)
  deck : DeckState
  bet : Int
  round_active : Bool

/-- Model of `Game._resolve_player_blackjack`: pay `int(bet * 2.5)` —
for the nonnegative integer bets of the game this is `floor(bet × 2.5) =
(5 * bet) / 2` — and report the round as not started. -/
def resolvePlayerBlackjack (g : GameState) : Bool × GameState :=
  (false, { g with player := playerWin ((5 * g.bet) / 2) g.player })

/-- Model of `Game._resolve_dealer_blackjack`: its own `is_blackjack()`
call on the player hand raises before either branch can be reached. -/
def resolveDealerBlackjack (g : GameState) : Except PyErr (Bool × GameState) := do
  let pb ← is_blackjackCalledE g.player.hand
  if pb then .ok (false, { g with player := playerWin g.bet g.player })
  else .ok (false, g)

/-- Model of `Game.start_round`: refuse when bankroll < bet, place the
bet, clear both hands, deal player/dealer/player/dealer, then run the
two (property-calling) blackjack checks. -/
def startRound (g : GameState) : Except PyErr (Bool × GameState) :=
  if g.player.bankroll < g.bet then .ok (false, g)
  else
    match placeBet g.bet g.player with
    | (false, p) => .ok (false, { g with player := p })
    | (true, p) =>
      let p1 := clearHands p
      let (c1, d1) := Deck.deal g.deck
      let p2 := { p1 with hand := p1.hand ++ [c1] }
      let (c2, d2) := Deck.deal d1
      let dh1 : List (Option Card) := [] ++ [c2]
      let (c3, d3) := Deck.deal d2
      let p3 := { p2 with hand := p2.hand ++ [c3] }
      let (c4, d4) := Deck.deal d3
      let dh2 := dh1 ++ [c4]
      let g1 := { g with player := p3, dealer_hand := dh2, deck := d4,
                         round_active := true }
      do
        let db ← is_blackjackCalledE g1.dealer_hand
        if db then resolveDealerBlackjack g1
        else do
          let pb ← is_blackjackCalledE g1.player.hand
          if pb then .ok (resolvePlayerBlackjack g1)
          else .ok (true, g1)

/-- The player-turn loop of `Game.play_auto` (`while hand.value < 21`).
HIT draws and loops; STAND exits; DOUBLE_DOWN re-bets (success flag
discarded), draws exactly one card and exits; SPLIT and anything else
exit.  A HIT drawn from an empty shoe appends `None`, and the next loop
guard's `hand.value` raises `AttributeError`. -/
def playerTurn (strat : List Card → Card → Bool → Bool → Bool → Action)
    (bet : Int) (dealer_hand : List (Option Card)) (p : PlayerState)
    (deck : DeckState) : Except PyErr (PlayerState × DeckState) := do
  let v ← handValueOptE p.hand
  if v < 21 then do
    let cs ← toCardsE p.hand
    let d0 ← headCardE dealer_hand
    let dc ← ofOptionCardE d0
    match strat cs dc true (is_pair cs) true with
    | Action.hit =>
      match hDeal : Deck.deal deck with
      | (some c, deck') =>
        playerTurn strat bet dealer_hand { p with hand := p.hand ++ [some c] } deck'
      | (none, _) => .error PyErr.attributeError
    | Action.stand => .ok (p, deck)
    | Action.double_down =>
      let p2 := (placeBet bet p).2
      let (c, deck') := Deck.deal deck
      .ok ({ p2 with hand := p2.hand ++ [c] }, deck')
    | _ => .ok (p, deck)
  else .ok (p, deck)
termination_by deck.cards.length
decreasing_by
  simp_wf
  have h1 := (deal_some_spec hDeal).1
  simp only [remaining] at h1
  omega

/-- The dealer-turn loop of `Game.play_auto`
(`while dealer.should_hit()`, i.e. while `hand.value < 17`).  Drawing
from an empty shoe appends `None` and the next `should_hit` guard's
`hand.value` raises `AttributeError`. -/
def dealerTurn (hand : List (Option Card)) (deck : DeckState) :
    Except PyErr (List (Option Card) × DeckState) := do
  let v ← handValueOptE hand
  if v < 17 then
    match hDeal : Deck.deal deck with
    | (some c, deck') => dealerTurn (hand ++ [some c]) deck'
    | (none, _) => .error PyErr.attributeError
  else .ok (hand, deck)
termination_by deck.cards.length
decreasing_by
  simp_wf
  have h1 := (deal_some_spec hDeal).1
  simp only [remaining] at h1
  omega

/-- Model of `Game._determine_winner`: settlement reads only the two
hand values and the *base* bet — dealer bust or lower value pays
`bet * 2`, push refunds `bet`, otherwise nothing. -/
def determineWinner (g : GameState) : Except PyErr (String × GameState) := do
  let player_value ← handValueOptE g.player.hand
  let dealer_value ← handValueOptE g.dealer_hand
  if 21 < dealer_value then
    .ok ("win", { g with player := playerWin (g.bet * 2) g.player })
  else if dealer_value < player_value then
    .ok ("win", { g with player := playerWin (g.bet * 2) g.player })
  else if player_value < dealer_value then
    .ok ("loss", g)
  else
    .ok ("push", { g with player := playerWin g.bet g.player })

/-- Model of `Game.play_auto`: start the round ("loss" when it refuses),
run the player turn, check for bust, run the dealer turn, settle. -/
def playAuto (g : GameState) : Except PyErr (String × GameState) := do
  let (started, g1) ← startRound g
  if started = false then .ok ("loss", g1)
  else do
    let (p2, deck2) ← playerTurn g1.player.strategy g1.bet g1.dealer_hand
      g1.player g1.deck
    let g2 := { g1 with player := p2, deck := deck2 }
    let v ← handValueOptE g2.player.hand
    if 21 < v then .ok ("loss", g2)
    else do
      let (dh, deck3) ← dealerTurn g2.dealer_hand g2.deck
      let g3 := { g2 with dealer_hand := dh, deck := deck3 }
      determineWinner g3

/-! ### Claims C7, C1, C9: betting guard and the round controller -/

/-- Claim C7: a bet strictly above the bankroll makes `place_bet` fail
with no state change, and `start_round` under `bankroll < bet` returns
`False` before deducting, clearing or dealing anything. -/
theorem claim_C7_insufficient_funds :
    (∀ (p : PlayerState) (amount : Int), p.bankroll < amount →
      placeBet amount p = (false, p)) ∧
    (∀ g : GameState, g.player.bankroll < g.bet →
      startRound g = .ok (false, g)) := by
  constructor
  · intro p amount h
    simp only [placeBet, gt_iff_lt]
    rw [if_pos h]
  · intro g h
    unfold startRound
    rw [if_pos h]

/-- A player who cannot cover the table bet of 10. -/
def samplePlayer : PlayerState :=
  { bankroll := 5, current_bet := 0, hand := [], strategy := basicDecide }

/-- A game whose player is short of the bet. -/
def gPoor : GameState :=
  { player := samplePlayer, dealer_hand := [], deck := resetDeck 1, bet := 10,
    round_active := false }

/-- Concrete instantiation of claim C7 at bankroll 5 against bet 10. -/
theorem claim_C7_insufficient_funds_witness :
    samplePlayer.bankroll < 10 ∧ placeBet 10 samplePlayer = (false, samplePlayer) ∧
      startRound gPoor = .ok (false, gPoor) :=
  ⟨by decide, claim_C7_insufficient_funds.1 samplePlayer 10 (by decide),
   claim_C7_insufficient_funds.2 gPoor (by decide)⟩

/-- Shoe arranged so the deal (which pops from the end of `_cards`)
gives the player Ace♠ and King♥ and the dealer Nine♦ and Two♣ — the
spec's end-to-end scenario A. -/
def scenarioDeck : DeckState :=
  { num_decks := 6,
    cards := [⟨Rank.two, Suit.clubs⟩, ⟨Rank.king, Suit.hearts⟩,
              ⟨Rank.nine, Suit.diamonds⟩, ⟨Rank.ace, Suit.spades⟩],
    dealt_cards := [] }

/-- Scenario-A player: ample bankroll, basic strategy. -/
def scenarioPlayer : PlayerState :=
  { bankroll := 1000, current_bet := 0, hand := [], strategy := basicDecide }

/-- Scenario-A game state before `start_round`. -/
def scenarioGame : GameState :=
  { player := scenarioPlayer, dealer_hand := [], deck := scenarioDeck, bet := 10,
    round_active := false }

/-- Claim C1 (code bug): in scenario A the player is dealt a natural
blackjack and the dealer is not, yet `start_round` raises
`TypeError: 'bool' object is not callable` at its
`self.dealer.hand.is_blackjack()` check — the property is called as a
function — instead of paying `floor(bet × 2.5)` and returning. -/
theorem claim_C1_blackjack_payout_raises :
    is_blackjack [⟨Rank.ace, Suit.spades⟩, ⟨Rank.king, Suit.hearts⟩] = true ∧
    is_blackjack [⟨Rank.nine, Suit.diamonds⟩, ⟨Rank.two, Suit.clubs⟩] = false ∧
    startRound scenarioGame = .error PyErr.typeError :=
  ⟨rfl, rfl, rfl⟩

/-- Claim C9 (code bug): `play_auto` does return "loss" on the one path
where `start_round` actually returns `False` — insufficient funds, where
no money moved — but the after-deal blackjack paths never return `False`
at all: `start_round` raises `TypeError` first, and `play_auto`
propagates the exception instead of reporting "loss". -/
theorem claim_C9_play_auto_loss_mapping :
    playAuto gPoor = .ok ("loss", gPoor) ∧
    playAuto scenarioGame = .error PyErr.typeError :=
  ⟨rfl, rfl⟩

/-! ### Claim C4: the dealer draws exactly while value < 17 -/

@[simp] lemma bindE_ok {α β : Type} (f : α → Except PyErr β) (v : α) :
    (Except.ok v >>= f) = f v := rfl

@[simp] lemma bindE_error {α β : Type} (f : α → Except PyErr β) (e : PyErr) :
    ((Except.error e : Except PyErr α) >>= f) = Except.error e := rfl

lemma dealerTurn_stand (hand : List (Option Card)) (deck : DeckState) (v : Nat)
    (hval : handValueOptE hand = .ok v) (h17 : 17 ≤ v) :
    dealerTurn hand deck = .ok (hand, deck) := by
  unfold dealerTurn
  rw [hval, bindE_ok, if_neg (by omega)]

lemma dealerTurn_hit (hand : List (Option Card)) (deck : DeckState) (v : Nat)
    (c : Card) (deck' : DeckState)
    (hval : handValueOptE hand = .ok v) (hv : v < 17)
    (hdeal : Deck.deal deck = (some c, deck')) :
    dealerTurn hand deck = dealerTurn (hand ++ [some c]) deck' := by
  conv_lhs => rw [dealerTurn]
  rw [hval, bindE_ok, if_pos hv]
  split
  · rename_i c2 deck2 hEq
    rw [hdeal] at hEq
    obtain ⟨hc, hd⟩ := Prod.mk.injEq .. ▸ hEq
    cases Option.some.inj hc
    cases hd
    rfl
  · rename_i deck2 hEq
    rw [hdeal] at hEq
    exact absurd hEq (by simp)

lemma dealerTurn_final_ge17 :
    ∀ (n : Nat) (hand : List (Option Card)) (deck : DeckState),
      deck.cards.length = n →
      ∀ (h' : List (Option Card)) (d' : DeckState),
        dealerTurn hand deck = .ok (h', d') →
        ∃ v', handValueOptE h' = .ok v' ∧ 17 ≤ v' := by
  intro n
  induction n using Nat.strong_induction_on with
  | _ n ih =>
    intro hand deck hn h' d' h
    unfold dealerTurn at h
    cases hval : handValueOptE hand with
    | error e => rw [hval, bindE_error] at h; exact absurd h (by simp)
    | ok v =>
      rw [hval, bindE_ok] at h
      by_cases hv : v < 17
      · rw [if_pos hv] at h
        split at h
        · rename_i c2 deck2 hEq
          have hlen : deck2.cards.length < n := by
            have h1 := (deal_some_spec hEq).1
            simp only [remaining] at h1
            omega
          exact ih deck2.cards.length hlen (hand ++ [some c2]) deck2 rfl h' d' h
        · exact absurd h (by simp)
      · rw [if_neg hv] at h
        injection Except.ok.inj h with he1 he2
        refine ⟨v, ?_, by omega⟩
        rw [← he1]
        exact hval

/-- Claim C4: in the dealer-turn loop the dealer draws a card exactly
while the hand value is below 17 (soft or hard alike): at 17 or more it
returns without drawing, below 17 with a card available it draws and
loops (so value 16 draws at least once), and any hand the loop finishes
with has value at least 17. -/
theorem claim_C4_dealer_rule :
    (∀ (hand : List (Option Card)) (deck : DeckState) (v : Nat),
      handValueOptE hand = .ok v → 17 ≤ v →
      dealerTurn hand deck = .ok (hand, deck)) ∧
    (∀ (hand : List (Option Card)) (deck : DeckState) (v : Nat) (c : Card)
        (deck' : DeckState),
      handValueOptE hand = .ok v → v < 17 → Deck.deal deck = (some c, deck') →
      dealerTurn hand deck = dealerTurn (hand ++ [some c]) deck') ∧
    (∀ (hand h' : List (Option Card)) (deck d' : DeckState),
      dealerTurn hand deck = .ok (h', d') →
      ∃ v', handValueOptE h' = .ok v' ∧ 17 ≤ v') :=
  ⟨dealerTurn_stand,
   fun hand deck v c deck' hval hv hdeal =>
     dealerTurn_hit hand deck v c deck' hval hv hdeal,
   fun hand h' deck d' h =>
     dealerTurn_final_ge17 deck.cards.length hand deck rfl h' d' h⟩

/-- The spec's scenario C dealer hand: Ten♠ + Six♥, value 16. -/
def hand16 : List (Option Card) :=
  [some ⟨Rank.ten, Suit.spades⟩, some ⟨Rank.six, Suit.hearts⟩]

/-- The Five of clubs. -/
def cardFive : Card := ⟨Rank.five, Suit.clubs⟩

/-- A shoe holding a single Five♣. -/
def deckFive : DeckState :=
  { num_decks := 6, cards := [cardFive], dealt_cards := [] }

/-- The shoe `deckFive` after its one card is dealt. -/
def deckFiveAfter : DeckState :=
  { num_decks := 6, cards := [], dealt_cards := [cardFive] }

/-- Concrete instantiation of claim C4: a 16 dealer hand draws (scenario
C), and a 21 hand does not. -/
theorem claim_C4_dealer_rule_witness :
    (handValueOptE hand16 = .ok 16 ∧ 16 < 17 ∧
      dealerTurn hand16 deckFive =
        dealerTurn (hand16 ++ [some cardFive]) deckFiveAfter) ∧
    (handValueOptE (hand16 ++ [some cardFive]) = .ok 21 ∧
      dealerTurn (hand16 ++ [some cardFive]) deckFiveAfter =
        .ok (hand16 ++ [some cardFive], deckFiveAfter)) :=
  ⟨⟨rfl, by omega,
    claim_C4_dealer_rule.2.1 hand16 deckFive 16 cardFive deckFiveAfter
      rfl (by omega) rfl⟩,
   ⟨rfl,
    claim_C4_dealer_rule.1 (hand16 ++ [some cardFive]) deckFiveAfter 21
      (by rfl) (by omega)⟩⟩

/-! ### Claim C10: DOUBLE_DOWN stake handling and settlement -/

@[simp] lemma ofOptionCardE_some (c : Card) : ofOptionCardE (some c) = .ok c := rfl

lemma playerTurn_double (strat : List Card → Card → Bool → Bool → Bool → Action)
    (bet : Int) (dh : List (Option Card)) (p : PlayerState) (deck : DeckState)
    (v : Nat) (cs : List Card) (d0 : Card) (oc : Option Card) (deck' : DeckState)
    (hval : handValueOptE p.hand = .ok v) (hv : v < 21)
    (hcs : toCardsE p.hand = .ok cs)
    (hd0 : headCardE dh = .ok (some d0))
    (hstrat : strat cs d0 true (is_pair cs) true = Action.double_down)
    (hdeal : Deck.deal deck = (oc, deck')) :
    playerTurn strat bet dh p deck =
      .ok ({ (placeBet bet p).2 with
               hand := (placeBet bet p).2.hand ++ [oc] }, deck') := by
  unfold playerTurn
  rw [hval]
  simp only [bindE_ok, hv, if_true, hcs, hd0, ofOptionCardE_some, hstrat, hdeal]

lemma placeBet_success (p : PlayerState) (bet : Int) (h : bet ≤ p.bankroll) :
    placeBet bet p =
      (true, { p with bankroll := p.bankroll - bet,
                      current_bet := p.current_bet + bet }) := by
  simp only [placeBet, gt_iff_lt]
  rw [if_neg (by omega)]

lemma determineWinner_pays (g g' : GameState) :
    (determineWinner g = .ok ("win", g') →
      g'.player.bankroll = g.player.bankroll + g.bet * 2) ∧
    (determineWinner g = .ok ("push", g') →
      g'.player.bankroll = g.player.bankroll + g.bet) := by
  unfold determineWinner
  cases hpv : handValueOptE g.player.hand with
  | error e =>
    rw [bindE_error]
    exact ⟨fun h => absurd h (by simp), fun h => absurd h (by simp)⟩
  | ok pv =>
    rw [bindE_ok]
    cases hdv : handValueOptE g.dealer_hand with
    | error e =>
      rw [bindE_error]
      exact ⟨fun h => absurd h (by simp), fun h => absurd h (by simp)⟩
    | ok dv =>
      rw [bindE_ok]
      split_ifs <;> refine ⟨fun h => ?_, fun h => ?_⟩ <;>
        (injection Except.ok.inj h with hs hg) <;>
        first
          | exact absurd hs (by decide)
          | (rw [← hg]; simp [playerWin])

/-- Claim C10: the DOUBLE_DOWN branch of `play_auto` places one extra
base bet with `place_bet`'s success flag discarded (so with bankroll
below the bet nothing extra is staked), draws exactly one card and exits
the loop; settlement in `_determine_winner` pays from the base bet
alone — a win credits `bet * 2` and a push refunds `bet`, with the
doubled stake never consulted. -/
theorem claim_C10_double_down_payout :
    (∀ (strat : List Card → Card → Bool → Bool → Bool → Action) (bet : Int)
        (dh : List (Option Card)) (p : PlayerState) (deck : DeckState)
        (v : Nat) (cs : List Card) (d0 : Card) (oc : Option Card)
        (deck' : DeckState),
      handValueOptE p.hand = .ok v → v < 21 →
      toCardsE p.hand = .ok cs →
      headCardE dh = .ok (some d0) →
      strat cs d0 true (is_pair cs) true = Action.double_down →
      Deck.deal deck = (oc, deck') →
      playerTurn strat bet dh p deck =
        .ok ({ (placeBet bet p).2 with
                 hand := (placeBet bet p).2.hand ++ [oc] }, deck')) ∧
    (∀ (p : PlayerState) (bet : Int), bet ≤ p.bankroll →
      (placeBet bet p).2.bankroll = p.bankroll - bet) ∧
    (∀ (p : PlayerState) (bet : Int), p.bankroll < bet →
      placeBet bet p = (false, p)) ∧
    (∀ g g' : GameState, determineWinner g = .ok ("win", g') →
      g'.player.bankroll = g.player.bankroll + g.bet * 2) ∧
    (∀ g g' : GameState, determineWinner g = .ok ("push", g') →
      g'.player.bankroll = g.player.bankroll + g.bet) := by
  refine ⟨playerTurn_double, fun p bet h => ?_, fun p bet h => ?_,
    fun g g' => (determineWinner_pays g g').1,
    fun g g' => (determineWinner_pays g g').2⟩
  · rw [placeBet_success p bet h]
  · simp only [placeBet, gt_iff_lt]
    rw [if_pos h]

/-- A doubling player: hard 11 on {Five♠, Six♥}, bankroll 100, bet 10
already staked. -/
def dblPlayer : PlayerState :=
  { bankroll := 100, current_bet := 10,
    hand := [some ⟨Rank.five, Suit.spades⟩, some ⟨Rank.six, Suit.hearts⟩],
    strategy := basicDecide }

/-- Dealer hand showing Ten♦. -/
def dblDealerHand : List (Option Card) :=
  [some ⟨Rank.ten, Suit.diamonds⟩, some ⟨Rank.two, Suit.clubs⟩]

/-- A shoe holding a single Nine♣. -/
def dblDeck : DeckState :=
  { num_decks := 6, cards := [⟨Rank.nine, Suit.clubs⟩], dealt_cards := [] }

/-- The shoe `dblDeck` after its one card is dealt. -/
def dblDeckAfter : DeckState :=
  { num_decks := 6, cards := [], dealt_cards := [⟨Rank.nine, Suit.clubs⟩] }

/-- Concrete instantiation of claim C10: basic strategy doubles hard 11,
one extra bet of 10 is deducted and exactly one card is drawn. -/
theorem claim_C10_double_down_payout_witness :
    playerTurn basicDecide 10 dblDealerHand dblPlayer dblDeck =
      .ok ({ (placeBet 10 dblPlayer).2 with
               hand := (placeBet 10 dblPlayer).2.hand ++
                 [some ⟨Rank.nine, Suit.clubs⟩] }, dblDeckAfter) ∧
    (10 : Int) ≤ dblPlayer.bankroll ∧
    (placeBet 10 dblPlayer).2.bankroll = dblPlayer.bankroll - 10 :=
  ⟨claim_C10_double_down_payout.1 basicDecide 10 dblDealerHand dblPlayer dblDeck
      11 [⟨Rank.five, Suit.spades⟩, ⟨Rank.six, Suit.hearts⟩] ⟨Rank.ten, Suit.diamonds⟩
      (some ⟨Rank.nine, Suit.clubs⟩) dblDeckAfter rfl (by omega) rfl rfl (by decide) rfl,
   by decide,
   claim_C10_double_down_payout.2.1 dblPlayer 10 (by decide)⟩

end Blackjack
